import Mathlib

/-!
Verification of `src/SimulationAndRand.py` (ORLib).

The Python functions are shallowly embedded: machine-free Python integers
become `Nat`, Python floats become `ℚ`, Python `None` and raised errors
become `Option`/explicit outcome types, and the process-wide random source
becomes an explicit list of draws consumed by the loops.
-/

namespace SimulationAndRand

/-- Python `x % m` on nonnegative integers: raises `ZeroDivisionError` when
`m = 0`; the raised error is modelled as `none`. -/
def pyMod (x m : Nat) : Option Nat :=
  if m = 0 then none else some (x % m)

/-- Loop of `random_mixed_congruential_generator` (lines 17-27): starting from
`current`, repeatedly compute `next = (a*current + c) % m`, append `next`,
break when `next = xZero`; `fuel` counts the remaining loop iterations
(the Python loop runs while `it <= upper_bound`, so `upper_bound + 1` times). -/
def lcg_loop (a c m xZero : Nat) : Nat → Nat → Option (List Nat)
  | _, 0 => some []
  | current, fuel + 1 =>
    match pyMod (a * current + c) m with
    | none => none
    | some next =>
      if next = xZero then some [next]
      else
        match lcg_loop a c m xZero next fuel with
        | none => none
        | some rest => some (next :: rest)

/-- `random_mixed_congruential_generator(a, c, m, x_zero, upper_bound)`:
returns the list of generated values, or `none` when the modulo operation
raises (`m = 0`). -/
def random_mixed_congruential_generator (a c m x_zero upper_bound : Nat) :
    Option (List Nat) :=
  lcg_loop a c m x_zero x_zero (upper_bound + 1)

/-- Loop of `uniform_random_from_mixed_congruential_generator` (lines 39-49):
identical recurrence, but appends `(next + 1/2) / m` instead of `next`. -/
def ulcg_loop (a c m xZero : Nat) : Nat → Nat → Option (List ℚ)
  | _, 0 => some []
  | current, fuel + 1 =>
    match pyMod (a * current + c) m with
    | none => none
    | some next =>
      if next = xZero then some [((next : ℚ) + 1 / 2) / m]
      else
        match ulcg_loop a c m xZero next fuel with
        | none => none
        | some rest => some ((((next : ℚ) + 1 / 2) / m) :: rest)

/-- `uniform_random_from_mixed_congruential_generator(a, c, m, x_zero,
upper_bound)`. -/
def uniform_random_from_mixed_congruential_generator
    (a c m x_zero upper_bound : Nat) : Option (List ℚ) :=
  ulcg_loop a c m x_zero x_zero (upper_bound + 1)

lemma lcg_loop_spec (a c m xZero : Nat) (hm : 0 < m) :
    ∀ (fuel current : Nat), ∃ l, lcg_loop a c m xZero current fuel = some l ∧
      (∀ y ∈ l, y < m) ∧ l.length ≤ fuel ∧
      (l.length = fuel ∨ l.getLast? = some xZero) := by
  intro fuel
  induction fuel with
  | zero => intro current; exact ⟨[], rfl, by simp, by simp, Or.inl rfl⟩
  | succ n ih =>
    intro current
    have hmod : pyMod (a * current + c) m = some ((a * current + c) % m) := by
      simp [pyMod, Nat.pos_iff_ne_zero.mp hm]
    set next := (a * current + c) % m with hnext
    have hlt : next < m := Nat.mod_lt _ hm
    by_cases hx : next = xZero
    · refine ⟨[next], ?_, ?_, ?_, ?_⟩
      · simp [lcg_loop, hmod, hx, ← hnext]
      · intro y hy; simp at hy; simpa [hy] using hlt
      · simp
      · right; simp [hx]
    · obtain ⟨rest, hrest, hmem, hlen, hterm⟩ := ih next
      refine ⟨next :: rest, ?_, ?_, ?_, ?_⟩
      · simp [lcg_loop, hmod, hx, ← hnext, hrest]
      · intro y hy
        rcases List.mem_cons.mp hy with h | h
        · simpa [h] using hlt
        · exact hmem y h
      · simpa using Nat.succ_le_succ hlen
      · rcases hterm with h | h
        · left; simp [h]
        · right
          cases rest with
          | nil => simp at h
          | cons r t => rw [List.getLast?_cons_cons]; exact h

/-- C1: for `m > 0`, every generated value lies in `[0, m)`, the returned
list has at most `upper_bound + 1` elements, and generation stops either
because the iteration cap was reached or because the newly produced value
equals the seed (that repeated value being the last element of the output). -/
theorem c1_lcg_range_and_termination (a c m x_zero upper_bound : Nat)
    (hm : 0 < m) :
    ∃ l, random_mixed_congruential_generator a c m x_zero upper_bound = some l ∧
      (∀ y ∈ l, y < m) ∧ l.length ≤ upper_bound + 1 ∧
      (l.length = upper_bound + 1 ∨ l.getLast? = some x_zero) :=
  lcg_loop_spec a c m x_zero hm (upper_bound + 1) x_zero

/-- Witness for C1 at the concrete parameters (5, 3, 16, 1, 20). -/
theorem c1_lcg_range_and_termination_witness :
    0 < 16 ∧
    ∃ l, random_mixed_congruential_generator 5 3 16 1 20 = some l ∧
      (∀ y ∈ l, y < 16) ∧ l.length ≤ 20 + 1 ∧
      (l.length = 20 + 1 ∨ l.getLast? = some 1) :=
  ⟨by decide, c1_lcg_range_and_termination 5 3 16 1 20 (by decide)⟩

/-- C2 counterexample: the returned list does not start with the seed `1`;
the claimed 17-element sequence is not what the function returns. -/
theorem c2_claimed_sequence_counterexample :
    random_mixed_congruential_generator 5 3 16 1 20 ≠
      some [1, 8, 11, 10, 5, 12, 15, 14, 9, 0, 3, 2, 13, 4, 7, 6, 1] := by
  decide

/-- C2 (amended): the call returns exactly the successive generated values
8, 11, 10, 5, 12, 15, 14, 9, 0, 3, 2, 13, 4, 7, 6, 1 — the seed `1` is not
part of the output, and generation terminates at the repeat of the seed. -/
theorem c2_concrete_sequence :
    random_mixed_congruential_generator 5 3 16 1 20 =
      some [8, 11, 10, 5, 12, 15, 14, 9, 0, 3, 2, 13, 4, 7, 6, 1] := by
  decide

lemma ulcg_loop_eq_map (a c m xZero : Nat) :
    ∀ (fuel current : Nat), ulcg_loop a c m xZero current fuel =
      (lcg_loop a c m xZero current fuel).map
        (List.map (fun v : Nat => ((v : ℚ) + 1 / 2) / m)) := by
  intro fuel
  induction fuel with
  | zero => intro current; simp [ulcg_loop, lcg_loop]
  | succ n ih =>
    intro current
    cases hmod : pyMod (a * current + c) m with
    | none => simp [ulcg_loop, lcg_loop, hmod]
    | some next =>
      by_cases hx : next = xZero
      · simp [ulcg_loop, lcg_loop, hmod, hx]
      · cases hrec : lcg_loop a c m xZero next n with
        | none => simp [ulcg_loop, lcg_loop, hmod, hx, ih, hrec]
        | some rest => simp [ulcg_loop, lcg_loop, hmod, hx, ih, hrec]

lemma norm_mem_unit_interval (m v : Nat) (hm : 0 < m) (hv : v < m) :
    0 < ((v : ℚ) + 1 / 2) / m ∧ ((v : ℚ) + 1 / 2) / m < 1 := by
  have hmq : (0 : ℚ) < m := by exact_mod_cast hm
  constructor
  · apply div_pos _ hmq
    positivity
  · rw [div_lt_one hmq]
    have : (v : ℚ) + 1 ≤ m := by exact_mod_cast Nat.succ_le_of_lt hv
    linarith

/-- C3: for `m > 0`, the normalized generator returns exactly the raw
generator's list with `(raw + 1/2) / m` applied elementwise, and every
element of a returned list lies strictly inside `(0, 1)`. -/
theorem c3_uniform_variant_is_map (a c m x_zero upper_bound : Nat)
    (hm : 0 < m) :
    uniform_random_from_mixed_congruential_generator a c m x_zero upper_bound =
      (random_mixed_congruential_generator a c m x_zero upper_bound).map
        (List.map (fun v : Nat => ((v : ℚ) + 1 / 2) / m)) ∧
    ∀ l, uniform_random_from_mixed_congruential_generator a c m x_zero
        upper_bound = some l → ∀ y ∈ l, 0 < y ∧ y < 1 := by
  constructor
  · exact ulcg_loop_eq_map a c m x_zero (upper_bound + 1) x_zero
  · intro l hl y hy
    obtain ⟨raw, hraw, hmem, -, -⟩ :=
      lcg_loop_spec a c m x_zero hm (upper_bound + 1) x_zero
    have hmap := ulcg_loop_eq_map a c m x_zero (upper_bound + 1) x_zero
    rw [uniform_random_from_mixed_congruential_generator] at hl
    rw [hmap, hraw] at hl
    simp only [Option.map_some', Option.some_inj] at hl
    subst hl
    obtain ⟨v, hv, hvy⟩ := List.mem_map.mp hy
    rw [← hvy]
    exact norm_mem_unit_interval m v hm (hmem v hv)

/-- Witness for C3 at the concrete parameters (5, 3, 16, 1, 20). -/
theorem c3_uniform_variant_is_map_witness :
    0 < 16 ∧
    (uniform_random_from_mixed_congruential_generator 5 3 16 1 20 =
      (random_mixed_congruential_generator 5 3 16 1 20).map
        (List.map (fun v : Nat => ((v : ℚ) + 1 / 2) / 16)) ∧
    ∀ l, uniform_random_from_mixed_congruential_generator 5 3 16 1 20 =
        some l → ∀ y ∈ l, 0 < y ∧ y < 1) :=
  ⟨by decide, by
    have h := c3_uniform_variant_is_map 5 3 16 1 20 (by decide)
    exact_mod_cast h⟩

/-- C9: calling the generator with modulus `m = 0` does not proceed with
undefined behaviour: the first modulo operation signals the error (Python
raises `ZeroDivisionError`, modelled as the `none` outcome). -/
theorem c9_modulus_zero_signals_error (a c x_zero upper_bound : Nat) :
    random_mixed_congruential_generator a c 0 x_zero upper_bound = none := by
  simp [random_mixed_congruential_generator, lcg_loop, pyMod]

/-- Python `random.uniform(lo, hi)` applied to a unit draw `u`: the value
`lo + (hi - lo) * u`. The loops below consume an explicit list of unit
draws in place of the process-wide random source. -/
def uniform (lo hi u : ℚ) : ℚ := lo + (hi - lo) * u

/-- Loop of `generate_acceptance_rejection` (lines 72-82): each element of
`draws` is the pair of unit draws of one trial. The accumulator is the
Python variable `evaluation_image`, unbound (`none`) before the first
iteration; on acceptance the loop breaks, otherwise after the last trial
the function returns the last `evaluation_image` (an `UnboundLocalError`
when the loop body never ran, modelled as `none`). -/
def gar_loop (m a b : ℚ) (f : ℚ → ℚ) : List (ℚ × ℚ) → Option ℚ → Option ℚ
  | [], evaluation_image => evaluation_image
  | (u1, u2) :: rest, _ =>
    let first_random := uniform 0 1 u1
    let second_random := uniform 0 1 u2
    let x := a + (b - a) * first_random
    let evaluation_image := f x
    if second_random ≤ evaluation_image / m then some evaluation_image
    else gar_loop m a b f rest (some evaluation_image)

/-- `generate_acceptance_rejection(m, a, b, function, upper_limit)`, run on
an explicit list of `upper_limit` trial draw pairs. -/
def generate_acceptance_rejection (m a b : ℚ) (f : ℚ → ℚ)
    (draws : List (ℚ × ℚ)) : Option ℚ :=
  gar_loop m a b f draws none

/-- `np.linspace(a, b, n)` (line 133): `n` equally spaced points from `a`
to `b`, endpoints included. -/
def linspace (a b : ℚ) (n : Nat) : List ℚ :=
  (List.range n).map (fun i : Nat => a + (b - a) * (i : ℚ) / ((n : ℚ) - 1))

/-- Python `max` over a list (line 134); the empty case is a `ValueError`
in Python and never arises here (the grid is nonempty). -/
def pyMax : List ℚ → ℚ
  | [] => 0
  | h :: t => t.foldl max h

/-- The bound `m` computed by `generate_acceptance_rejection_with_symp`
(lines 133-134): maximum of the density over the 10000-point grid. -/
def arBound (a b : ℚ) (f : ℚ → ℚ) : ℚ :=
  pyMax ((linspace a b 10000).map f)

/-- Trial loop of `generate_acceptance_rejection_with_symp` (lines 137-150):
`first_random` is drawn by `random.uniform(a, b)`, the candidate is
`x_value = a + (b - a) * first_random`, and on exhaustion the function
returns `None` (modelled as `none`, here a genuine Python `None`). -/
def ar2_loop (a b mBound : ℚ) (f : ℚ → ℚ) : List (ℚ × ℚ) → Option ℚ
  | [] => none
  | (u1, u2) :: rest =>
    let first_random := uniform a b u1
    let second_random := uniform 0 1 u2
    let x_value := a + (b - a) * first_random
    let evaluation_image := f x_value
    if second_random ≤ evaluation_image / mBound then some evaluation_image
    else ar2_loop a b mBound f rest

/-- `generate_acceptance_rejection_with_symp(a, b, function, upper_limit)`,
run on an explicit list of trial draw pairs. -/
def generate_acceptance_rejection_with_symp (a b : ℚ) (f : ℚ → ℚ)
    (draws : List (ℚ × ℚ)) : Option ℚ :=
  ar2_loop a b (arBound a b f) f draws

lemma uniform_zero_one (u : ℚ) : uniform 0 1 u = u := by
  simp [uniform]

/-- C4: in the bound-supplied variant a trial accepts exactly when
`u2 ≤ f(x)/m` for the candidate `x = a + (b-a)*u1`, and on acceptance the
function returns the density evaluation `f(x)`, not the candidate `x`. -/
theorem c4_acceptance_trial (m a b u1 u2 : ℚ) (f : ℚ → ℚ)
    (rest : List (ℚ × ℚ)) (acc : Option ℚ) :
    (u2 ≤ f (a + (b - a) * u1) / m →
      gar_loop m a b f ((u1, u2) :: rest) acc =
        some (f (a + (b - a) * u1))) ∧
    (¬ u2 ≤ f (a + (b - a) * u1) / m →
      gar_loop m a b f ((u1, u2) :: rest) acc =
        gar_loop m a b f rest (some (f (a + (b - a) * u1)))) := by
  constructor
  · intro h
    simp only [gar_loop, uniform_zero_one]
    rw [if_pos h]
  · intro h
    simp only [gar_loop, uniform_zero_one]
    rw [if_neg h]

/-- Witness for C4: an accepting first trial returns the density value. -/
theorem c4_acceptance_trial_witness :
    ((0 : ℚ) ≤ (fun t : ℚ => t + 1) (0 + (2 - 0) * (1 / 2)) / 1) ∧
    gar_loop 1 0 2 (fun t : ℚ => t + 1) [(1 / 2, 0)] none =
      some ((fun t : ℚ => t + 1) (0 + (2 - 0) * (1 / 2))) := by
  have h : (0 : ℚ) ≤ (fun t : ℚ => t + 1) (0 + (2 - 0) * (1 / 2)) / 1 := by
    norm_num
  exact ⟨h,
    (c4_acceptance_trial 1 0 2 (1 / 2) 0 (fun t : ℚ => t + 1) [] none).1 h⟩

lemma gar_loop_some_of_seed (m a b : ℚ) (f : ℚ → ℚ) :
    ∀ (draws : List (ℚ × ℚ)) (e : ℚ),
      ∃ v, gar_loop m a b f draws (some e) = some v := by
  intro draws
  induction draws with
  | nil => intro e; exact ⟨e, rfl⟩
  | cons d rest ih =>
    intro e
    obtain ⟨u1, u2⟩ := d
    simp only [gar_loop]
    split
    · exact ⟨_, rfl⟩
    · exact ih _

/-- C10: with an empty trial list (`upper_limit ≤ 0`, so `range(0,
upper_limit)` is empty) the bound-supplied variant has no defined result
(the Python `UnboundLocalError` on `evaluation_image`, modelled as `none`),
while any nonempty trial list always produces a value (accepted or stale). -/
theorem c10_result_defined_iff_trials (m a b : ℚ) (f : ℚ → ℚ)
    (draws : List (ℚ × ℚ)) (h : draws ≠ []) :
    generate_acceptance_rejection m a b f [] = none ∧
    ∃ v, generate_acceptance_rejection m a b f draws = some v := by
  refine ⟨rfl, ?_⟩
  cases draws with
  | nil => exact absurd rfl h
  | cons d rest =>
    obtain ⟨u1, u2⟩ := d
    simp only [generate_acceptance_rejection, gar_loop]
    split
    · exact ⟨_, rfl⟩
    · exact gar_loop_some_of_seed m a b f rest _

/-- Witness for C10 with a single trial. -/
theorem c10_result_defined_iff_trials_witness :
    generate_acceptance_rejection 1 0 1 (fun t : ℚ => t) [] = none ∧
    ∃ v, generate_acceptance_rejection 1 0 1 (fun t : ℚ => t)
      [((0 : ℚ), (0 : ℚ))] = some v :=
  c10_result_defined_iff_trials 1 0 1 (fun t : ℚ => t)
    [((0 : ℚ), (0 : ℚ))] (by decide)

lemma gar_loop_all_reject (m a b : ℚ) (f : ℚ → ℚ) :
    ∀ (draws : List (ℚ × ℚ)) (acc : Option ℚ) (p : ℚ × ℚ),
      draws.getLast? = some p →
      (∀ q ∈ draws,
        ¬ uniform 0 1 q.2 ≤ f (a + (b - a) * uniform 0 1 q.1) / m) →
      gar_loop m a b f draws acc =
        some (f (a + (b - a) * uniform 0 1 p.1)) := by
  intro draws
  induction draws with
  | nil => intro acc p hlast _; simp at hlast
  | cons d rest ih =>
    intro acc p hlast hrej
    obtain ⟨u1, u2⟩ := d
    have hd := hrej (u1, u2) (List.mem_cons_self _ _)
    simp only [gar_loop]
    rw [if_neg hd]
    cases rest with
    | nil =>
      simp only [List.getLast?_singleton, Option.some_inj] at hlast
      subst hlast
      rfl
    | cons r t =>
      rw [List.getLast?_cons_cons] at hlast
      exact ih _ p hlast (fun q hq => hrej q (List.mem_cons_of_mem _ hq))

lemma ar2_loop_all_reject (a b mBound : ℚ) (g : ℚ → ℚ) :
    ∀ draws : List (ℚ × ℚ),
      (∀ q ∈ draws,
        ¬ uniform 0 1 q.2 ≤ g (a + (b - a) * uniform a b q.1) / mBound) →
      ar2_loop a b mBound g draws = none := by
  intro draws
  induction draws with
  | nil => intro _; rfl
  | cons d rest ih =>
    intro hrej
    obtain ⟨u1, u2⟩ := d
    have hd := hrej (u1, u2) (List.mem_cons_self _ _)
    simp only [ar2_loop]
    rw [if_neg hd]
    exact ih (fun q hq => hrej q (List.mem_cons_of_mem _ hq))

/-- C5 counterexample: a run of the bound-supplied variant whose only trial
rejects does not signal a failure; it returns the stale last-evaluated
density value (`some 0`). -/
theorem c5_stale_return_counterexample :
    ¬ uniform 0 1 ((1 : ℚ) / 2) ≤
        (fun t : ℚ => (0 : ℚ)) (0 + (1 - 0) * uniform 0 1 ((1 : ℚ) / 2)) / 1 ∧
    generate_acceptance_rejection 1 0 1 (fun t : ℚ => (0 : ℚ))
      [((1 : ℚ) / 2, (1 : ℚ) / 2)] = some 0 := by
  constructor
  · simp [uniform]
  · norm_num [generate_acceptance_rejection, gar_loop, uniform]

/-- C5 (amended): on exhausting all trials without an acceptance, the
bound-supplied variant returns the stale last-evaluated density value (no
failure is signalled), while the bound-auto-computed variant returns the
explicit no-result marker `None`. -/
theorem c5_exhaustion_behavior (m a b : ℚ) (f : ℚ → ℚ)
    (draws : List (ℚ × ℚ)) (p : ℚ × ℚ)
    (hlast : draws.getLast? = some p)
    (hrej : ∀ q ∈ draws,
      ¬ uniform 0 1 q.2 ≤ f (a + (b - a) * uniform 0 1 q.1) / m)
    (a2 b2 : ℚ) (g : ℚ → ℚ) (draws2 : List (ℚ × ℚ))
    (hrej2 : ∀ q ∈ draws2,
      ¬ uniform 0 1 q.2 ≤
          g (a2 + (b2 - a2) * uniform a2 b2 q.1) / arBound a2 b2 g) :
    generate_acceptance_rejection m a b f draws =
      some (f (a + (b - a) * uniform 0 1 p.1)) ∧
    generate_acceptance_rejection_with_symp a2 b2 g draws2 = none :=
  ⟨gar_loop_all_reject m a b f draws none p hlast hrej,
   ar2_loop_all_reject a2 b2 (arBound a2 b2 g) g draws2 hrej2⟩

lemma foldl_max_const (c : ℚ) :
    ∀ t : List ℚ, (t.map (fun _ => c)).foldl max c = c := by
  intro t
  induction t with
  | nil => rfl
  | cons h t ih => simpa using ih

lemma pyMax_map_const (c : ℚ) (l : List ℚ) (hl : l ≠ []) :
    pyMax (l.map (fun _ => c)) = c := by
  cases l with
  | nil => exact absurd rfl hl
  | cons h t => simpa [pyMax] using foldl_max_const c t

lemma linspace_ne_nil (a b : ℚ) : linspace a b 10000 ≠ [] := by
  intro h
  have hlen := congrArg List.length h
  rw [linspace, List.length_map, List.length_range] at hlen
  simp at hlen

/-- Witness for C5: concrete all-rejecting runs of both variants. -/
theorem c5_exhaustion_behavior_witness :
    generate_acceptance_rejection 1 0 1 (fun t : ℚ => (0 : ℚ))
      [((1 : ℚ) / 2, (1 : ℚ) / 2)] =
      some ((fun t : ℚ => (0 : ℚ))
        (0 + (1 - 0) * uniform 0 1 (((1 : ℚ) / 2, (1 : ℚ) / 2)).1)) ∧
    generate_acceptance_rejection_with_symp 0 1 (fun t : ℚ => (1 : ℚ))
      [((0 : ℚ), (2 : ℚ))] = none := by
  have hbound : arBound 0 1 (fun t : ℚ => (1 : ℚ)) = 1 :=
    pyMax_map_const 1 (linspace 0 1 10000) (linspace_ne_nil 0 1)
  refine c5_exhaustion_behavior 1 0 1 (fun t : ℚ => (0 : ℚ))
    [((1 : ℚ) / 2, (1 : ℚ) / 2)] ((1 : ℚ) / 2, (1 : ℚ) / 2) rfl ?_
    0 1 (fun t : ℚ => (1 : ℚ)) [((0 : ℚ), (2 : ℚ))] ?_
  · intro q hq
    simp only [List.mem_singleton] at hq
    subst hq
    simp [uniform]
  · intro q hq
    simp only [List.mem_singleton] at hq
    subst hq
    rw [hbound]
    simp [uniform]

/-- C6: in the bound-auto-computed variant, `first_random = uniform a b u1`
lies in `[a, b]` (for a unit draw and `a ≤ b`), the trial candidate is
`x_value = a + (b-a) * first_random = a + (b-a) * (a + (b-a) * u1)` — the
interval scaling applied twice — and the bound `m` is precomputed as the
maximum of the density over 10000 equally spaced grid points spanning
`[a, b]`. -/
theorem c6_double_scaled_candidate_and_grid_bound
    (a b u1 u2 mBound : ℚ) (f : ℚ → ℚ) (rest : List (ℚ × ℚ)) (i : Nat)
    (h0 : 0 ≤ u1) (h1 : u1 ≤ 1) (hab : a ≤ b) (hi : i < 10000) :
    (a ≤ uniform a b u1 ∧ uniform a b u1 ≤ b) ∧
    ar2_loop a b mBound f ((u1, u2) :: rest) =
      (if uniform 0 1 u2 ≤ f (a + (b - a) * (a + (b - a) * u1)) / mBound
        then some (f (a + (b - a) * (a + (b - a) * u1)))
        else ar2_loop a b mBound f rest) ∧
    generate_acceptance_rejection_with_symp a b f rest =
      ar2_loop a b (pyMax ((linspace a b 10000).map f)) f rest ∧
    (linspace a b 10000).length = 10000 ∧
    (linspace a b 10000)[i]? = some (a + (b - a) * i / 9999) := by
  refine ⟨⟨?_, ?_⟩, ?_, rfl, ?_, ?_⟩
  · have := mul_nonneg (sub_nonneg.mpr hab) h0
    simp only [uniform]
    linarith
  · have := mul_le_of_le_one_right (sub_nonneg.mpr hab) h1
    simp only [uniform]
    linarith
  · simp only [ar2_loop, uniform]
  · rw [linspace, List.length_map, List.length_range]
  · rw [linspace, List.getElem?_map, List.getElem?_range hi]
    simp only [Option.map_some', Option.some_inj]
    norm_num

/-- Witness for C6 at concrete values. -/
theorem c6_double_scaled_candidate_and_grid_bound_witness :
    ((0 : ℚ) ≤ uniform 0 1 (1 / 2) ∧ uniform 0 1 ((1 : ℚ) / 2) ≤ 1) ∧
    ar2_loop 0 1 1 (fun t : ℚ => t) [((1 : ℚ) / 2, (0 : ℚ))] =
      (if uniform 0 1 (0 : ℚ) ≤
          (fun t : ℚ => t) (0 + (1 - 0) * (0 + (1 - 0) * (1 / 2))) / 1
        then some ((fun t : ℚ => t) (0 + (1 - 0) * (0 + (1 - 0) * (1 / 2))))
        else ar2_loop 0 1 1 (fun t : ℚ => t) []) ∧
    generate_acceptance_rejection_with_symp 0 1 (fun t : ℚ => t) [] =
      ar2_loop 0 1 (pyMax ((linspace 0 1 10000).map (fun t : ℚ => t)))
        (fun t : ℚ => t) [] ∧
    (linspace 0 1 10000).length = 10000 ∧
    (linspace 0 1 10000)[(0 : Nat)]? =
      some ((0 : ℚ) + (1 - 0) * ((0 : Nat) : ℚ) / 9999) :=
  c6_double_scaled_candidate_and_grid_bound 0 1 (1 / 2) 0 1
    (fun t : ℚ => t) [] 0 (by norm_num) (by norm_num) (by norm_num)
    (by norm_num)

/-- Outcome of the black-box call `smp.solve(eq, x)` (line 105): a list of
solution branches, the raised `sympy.PolynomialError` that line 110
catches, or any other raised error (e.g. `NotImplementedError` for
equations with no closed form), which the function does not catch. -/
inductive SolveOutcome (α : Type) where
  | sols (l : List α)
  | polynomialError
  | otherRaised
deriving DecidableEq

/-- Outcome of a Python call: a returned value or a propagating raised
error. -/
inductive PyOutcome (α : Type) where
  | ret (v : α)
  | raised
deriving DecidableEq

/-- Control flow of `integrate_and_find_inverse` (lines 95-112): the
symbolic engine is a black box, so the computed integral is a parameter
and the solver call's outcome is a parameter. On solver success the
function returns the pair `[integrated, inverse]`; on a caught
`PolynomialError` it prints a reported error message and returns `None`;
any other raised error propagates to the caller. -/
def integrate_and_find_inverse (α : Type) (integrated : α)
    (solveOutcome : SolveOutcome α) : PyOutcome (Option (α × List α)) :=
  match solveOutcome with
  | SolveOutcome.sols l => PyOutcome.ret (some (integrated, l))
  | SolveOutcome.polynomialError => PyOutcome.ret none
  | SolveOutcome.otherRaised => PyOutcome.raised

/-- C7: on solver success the function returns the pair of the CDF
expression and the list of candidate inverse branches; both failure
outcomes (the caught `PolynomialError`, reported and returned as the
distinct `None` marker, and any other raised solver error, which
propagates) are distinct from every successful pair result, so a
no-closed-form failure is never treated as success with an empty
result. -/
theorem c7_inversion_failure_is_distinct (α : Type) (integrated : α)
    (l : List α) (pair : α × List α) :
    integrate_and_find_inverse α integrated (SolveOutcome.sols l) =
      PyOutcome.ret (some (integrated, l)) ∧
    integrate_and_find_inverse α integrated SolveOutcome.polynomialError =
      PyOutcome.ret none ∧
    integrate_and_find_inverse α integrated SolveOutcome.otherRaised =
      PyOutcome.raised ∧
    integrate_and_find_inverse α integrated SolveOutcome.polynomialError ≠
      PyOutcome.ret (some pair) ∧
    integrate_and_find_inverse α integrated SolveOutcome.otherRaised ≠
      PyOutcome.ret (some pair) := by
  refine ⟨rfl, rfl, rfl, ?_, ?_⟩ <;> simp [integrate_and_find_inverse]

/-- Witness for C7 at a concrete instantiation. -/
theorem c7_inversion_failure_is_distinct_witness :
    integrate_and_find_inverse ℚ 1 (SolveOutcome.sols [2]) =
      PyOutcome.ret (some (1, [2])) ∧
    integrate_and_find_inverse ℚ 1 SolveOutcome.polynomialError =
      PyOutcome.ret none ∧
    integrate_and_find_inverse ℚ 1 SolveOutcome.otherRaised =
      PyOutcome.raised ∧
    integrate_and_find_inverse ℚ 1 SolveOutcome.polynomialError ≠
      PyOutcome.ret (some (1, [])) ∧
    integrate_and_find_inverse ℚ 1 SolveOutcome.otherRaised ≠
      PyOutcome.ret (some (1, [])) :=
  c7_inversion_failure_is_distinct ℚ 1 [2] (1, [])

/-- The range check of both inverse-transform samplers (lines 178-180 and
216-218): the candidate is discarded when a set lower bound exceeds it or
a set upper bound is below it. -/
def outOfRange (lower_bound upper_bound : Option ℚ) (rv : ℚ) : Bool :=
  (match lower_bound with
   | some lo => decide (rv < lo)
   | none => false) ||
  (match upper_bound with
   | some hi => decide (hi < rv)
   | none => false)

/-- Accept/redraw loop shared by `inverse_transform_sampling` (lines
171-184) and `user_inverse_transform_sampling_from_inverse` (lines
207-222): `draws` is the stream of uniform draws, `rvs` the accumulated
batch; `none` models the loop still waiting for more randomness (the
unbounded Python loop has not finished). -/
def itsLoop (quantile : ℚ → ℚ) (lower_bound upper_bound : Option ℚ)
    (n_samples : Nat) : List ℚ → List ℚ → Option (List ℚ)
  | [], rvs => if rvs.length < n_samples then none else some rvs
  | u :: rest, rvs =>
    if rvs.length < n_samples then
      if outOfRange lower_bound upper_bound (quantile u) then
        itsLoop quantile lower_bound upper_bound n_samples rest rvs
      else
        itsLoop quantile lower_bound upper_bound n_samples rest
          (rvs ++ [quantile u])
    else some rvs

/-- `inverse_transform_sampling(n_samples, dist_name, lower_bound,
upper_bound, ...)`: the catalog distribution's quantile function
`dist.ppf` is a black-box parameter, and the uniform draws are an explicit
stream. -/
def inverse_transform_sampling (n_samples : Nat) (ppf : ℚ → ℚ)
    (lower_bound upper_bound : Option ℚ) (draws : List ℚ) :
    Option (List ℚ) :=
  itsLoop ppf lower_bound upper_bound n_samples draws []

/-- `user_inverse_transform_sampling_from_inverse(n_samples, inverse,
lower_bound, upper_bound)`: the lambdified symbolic inverse is a black-box
numeric function parameter. -/
def user_inverse_transform_sampling_from_inverse (n_samples : Nat)
    (inverse_func : ℚ → ℚ) (lower_bound upper_bound : Option ℚ)
    (draws : List ℚ) : Option (List ℚ) :=
  itsLoop inverse_func lower_bound upper_bound n_samples draws []

lemma itsLoop_spec (quantile : ℚ → ℚ) (lo hi : ℚ) (n : Nat) :
    ∀ (draws rvs out : List ℚ),
      rvs.length ≤ n → (∀ y ∈ rvs, lo ≤ y ∧ y ≤ hi) →
      itsLoop quantile (some lo) (some hi) n draws rvs = some out →
      out.length = n ∧ ∀ y ∈ out, lo ≤ y ∧ y ≤ hi := by
  intro draws
  induction draws with
  | nil =>
    intro rvs out hlen hmem hout
    simp only [itsLoop] at hout
    by_cases hc : rvs.length < n
    · rw [if_pos hc] at hout; exact absurd hout (by simp)
    · rw [if_neg hc] at hout
      obtain rfl : rvs = out := Option.some_inj.mp hout
      exact ⟨Nat.le_antisymm hlen (Nat.le_of_not_lt hc), hmem⟩
  | cons u rest ih =>
    intro rvs out hlen hmem hout
    simp only [itsLoop] at hout
    by_cases hc : rvs.length < n
    · rw [if_pos hc] at hout
      by_cases hr : outOfRange (some lo) (some hi) (quantile u) = true
      · rw [if_pos hr] at hout
        exact ih rvs out hlen hmem hout
      · rw [if_neg hr] at hout
        have hin : lo ≤ quantile u ∧ quantile u ≤ hi := by
          simp only [outOfRange, Bool.or_eq_true, decide_eq_true_eq] at hr
          push_neg at hr
          exact hr
        refine ih (rvs ++ [quantile u]) out ?_ ?_ hout
        · simpa using Nat.succ_le_of_lt hc
        · intro y hy
          rcases List.mem_append.mp hy with h | h
          · exact hmem y h
          · simp only [List.mem_singleton] at h
            subst h
            exact hin
    · rw [if_neg hc] at hout
      obtain rfl : rvs = out := Option.some_inj.mp hout
      exact ⟨Nat.le_antisymm hlen (Nat.le_of_not_lt hc), hmem⟩

/-- C8: whenever either inverse-transform sampling variant completes with
both clamp bounds set, the returned batch has exactly `n_samples` elements
and every element lies within `[lower_bound, upper_bound]`. -/
theorem c8_clamped_batch_size_and_range (n : Nat) (ppf inverse_func : ℚ → ℚ)
    (lo hi : ℚ) (draws1 draws2 out1 out2 : List ℚ)
    (h1 : inverse_transform_sampling n ppf (some lo) (some hi) draws1 =
      some out1)
    (h2 : user_inverse_transform_sampling_from_inverse n inverse_func
      (some lo) (some hi) draws2 = some out2) :
    (out1.length = n ∧ ∀ y ∈ out1, lo ≤ y ∧ y ≤ hi) ∧
    (out2.length = n ∧ ∀ y ∈ out2, lo ≤ y ∧ y ≤ hi) :=
  ⟨itsLoop_spec ppf lo hi n draws1 [] out1 (Nat.zero_le n) (by simp) h1,
   itsLoop_spec inverse_func lo hi n draws2 [] out2 (Nat.zero_le n)
     (by simp) h2⟩

/-- Witness for C8: one accepted draw and one discarded-then-accepted
stream, for each variant. -/
theorem c8_clamped_batch_size_and_range_witness :
    (([(1 : ℚ) / 2] : List ℚ).length = 1 ∧
      ∀ y ∈ ([(1 : ℚ) / 2] : List ℚ), 0 ≤ y ∧ y ≤ 1) ∧
    (([(1 : ℚ) / 2] : List ℚ).length = 1 ∧
      ∀ y ∈ ([(1 : ℚ) / 2] : List ℚ), 0 ≤ y ∧ y ≤ 1) := by
  refine c8_clamped_batch_size_and_range 1 (fun t : ℚ => t) (fun t : ℚ => t)
    0 1 [(1 : ℚ) / 2] [2, (1 : ℚ) / 2] [(1 : ℚ) / 2] [(1 : ℚ) / 2] ?_ ?_
  · norm_num [inverse_transform_sampling, itsLoop, outOfRange]
  · norm_num [user_inverse_transform_sampling_from_inverse, itsLoop,
      outOfRange]

end SimulationAndRand
